import Mathlib

/-!
Verification of the pact-broker core engine (`PactBrokerDO` and its SQLite
schema) against its specification.

The relational store is embedded shallowly: each table is a list of rows in
insertion (rowid) order, each table's autoincrement counter is carried
explicitly, and the SQL `datetime('now')` timestamps are modelled by a
monotone `Nat` clock stamped on every insert.  A query `.where(...).get()`
is `List.find?` (first row in scan order); `ORDER BY created_at DESC`
followed by `.get()` is "first row attaining the maximal timestamp".
The SHA-256 digest is modelled as an explicit function parameter `sha`:
the code relies only on it being a deterministic pure function of the
serialized content, and pact `content` is modelled as its serialized string
(`JSON.stringify` is deterministic on a fixed value).
-/

/-- Row of the `pacticipants` table. -/
structure Pacticipant where
  id : Nat
  name : String
  mainBranch : Option String
  createdAt : Nat
deriving DecidableEq, Repr

/-- Row of the `versions` table. -/
structure Version where
  id : Nat
  pacticipantId : Nat
  number : String
  branch : Option String
  buildUrl : Option String
  createdAt : Nat
deriving DecidableEq, Repr

/-- Row of the `tags` table. -/
structure Tag where
  id : Nat
  versionId : Nat
  name : String
  createdAt : Nat
deriving DecidableEq, Repr

/-- Row of the `pacts` table. -/
structure Pact where
  id : Nat
  consumerVersionId : Nat
  providerId : Nat
  content : String
  contentSha : String
  createdAt : Nat
deriving DecidableEq, Repr

/-- Row of the `verifications` table. -/
structure Verification where
  id : Nat
  pactId : Nat
  providerVersionId : Nat
  success : Bool
  buildUrl : Option String
  verifiedAt : Nat
deriving DecidableEq, Repr

/-- Row of the `environments` table. -/
structure Environment where
  id : Nat
  name : String
  displayName : Option String
  production : Bool
  createdAt : Nat
deriving DecidableEq, Repr

/-- Row of the `deployed_versions` table. -/
structure DeployedVersion where
  id : Nat
  versionId : Nat
  environmentId : Nat
  deployedAt : Nat
  undeployedAt : Option Nat
deriving DecidableEq, Repr

/-- The whole relational store owned by one broker instance, plus the
autoincrement counters and the model clock. -/
structure Store where
  pacticipants : List Pacticipant := []
  versions : List Version := []
  tags : List Tag := []
  pacts : List Pact := []
  verifications : List Verification := []
  environments : List Environment := []
  deployedVersions : List DeployedVersion := []
  nextPacticipantId : Nat := 1
  nextVersionId : Nat := 1
  nextTagId : Nat := 1
  nextPactId : Nat := 1
  nextVerificationId : Nat := 1
  nextEnvironmentId : Nat := 1
  nextDeployedVersionId : Nat := 1
  now : Nat := 0
deriving DecidableEq, Repr

/-- The empty store produced by running the migrations on a fresh instance. -/
def Store.init : Store := {}

/-- First row attaining the maximal `createdAt`: models
`ORDER BY created_at DESC` followed by `.get()` (ties resolved to the
earlier row in scan order). -/
def argmaxCreatedAt : List Version → Option Version
  | [] => none
  | v :: vs =>
    match argmaxCreatedAt vs with
    | none => some v
    | some w => if v.createdAt < w.createdAt then some w else some v

/-- First row attaining the maximal `verifiedAt`: models
`ORDER BY verified_at DESC` followed by `.get()`. -/
def argmaxVerifiedAt : List Verification → Option Verification
  | [] => none
  | v :: vs =>
    match argmaxVerifiedAt vs with
    | none => some v
    | some w => if v.verifiedAt < w.verifiedAt then some w else some v

/-- Worker for `dedupKeepFirst`, carrying the values already emitted. -/
def dedupKeepFirstAux (seen : List Nat) : List Nat → List Nat
  | [] => []
  | x :: xs =>
    if x ∈ seen then dedupKeepFirstAux seen xs
    else x :: dedupKeepFirstAux (x :: seen) xs

/-- `SELECT DISTINCT` keeping the first occurrence of each value in scan
order. -/
def dedupKeepFirst (l : List Nat) : List Nat := dedupKeepFirstAux [] l

/-- JavaScript truthiness of an optional string (`undefined` and `""` are
falsy). -/
def strT (o : Option String) : Bool :=
  match o with
  | some s => s ≠ ""
  | none => false

/-- JavaScript truthiness of an optional boolean. -/
def boolT (o : Option Bool) : Bool := o = some true

-- ============ Pacticipant Operations ============

/-- `getPacticipant`: look a pacticipant up by name. -/
def getPacticipant (s : Store) (name : String) : Option Pacticipant :=
  s.pacticipants.find? (fun p => p.name = name)

/-- `getOrCreatePacticipant`. -/
def getOrCreatePacticipant (s : Store) (name : String) : Pacticipant × Store :=
  match getPacticipant s name with
  | some p => (p, s)
  | none =>
    let p : Pacticipant :=
      { id := s.nextPacticipantId, name := name, mainBranch := some "main",
        createdAt := s.now }
    (p, { s with pacticipants := s.pacticipants ++ [p],
                 nextPacticipantId := s.nextPacticipantId + 1,
                 now := s.now + 1 })

-- ============ Version Operations ============

/-- Row scan for a version of a given pacticipant with a given number. -/
def findVersion (l : List Version) (pacticipantId : Nat) (number : String) :
    Option Version :=
  l.find? (fun v => v.pacticipantId = pacticipantId ∧ v.number = number)

/-- `getOrCreateVersion`. -/
def getOrCreateVersion (s : Store) (pacticipantName versionNumber : String)
    (branch buildUrl : Option String) : (Pacticipant × Version) × Store :=
  let (p, s1) := getOrCreatePacticipant s pacticipantName
  match findVersion s1.versions p.id versionNumber with
  | some v => ((p, v), s1)
  | none =>
    let v : Version :=
      { id := s1.nextVersionId, pacticipantId := p.id, number := versionNumber,
        branch := branch, buildUrl := buildUrl, createdAt := s1.now }
    ((p, v), { s1 with versions := s1.versions ++ [v],
                       nextVersionId := s1.nextVersionId + 1,
                       now := s1.now + 1 })

/-- `getVersion`. -/
def getVersion (s : Store) (pacticipantName versionNumber : String) :
    Option Version :=
  match getPacticipant s pacticipantName with
  | none => none
  | some p => findVersion s.versions p.id versionNumber

-- ============ Tag Operations ============

/-- `addTag`: idempotent tagging of an existing version; `none` models the
NotFound result when the version does not exist. -/
def addTag (s : Store) (pacticipantName versionNumber tagName : String) :
    Option Tag × Store :=
  match getVersion s pacticipantName versionNumber with
  | none => (none, s)
  | some version =>
    match s.tags.find? (fun t => t.versionId = version.id ∧ t.name = tagName) with
    | some existing => (some existing, s)
    | none =>
      let t : Tag :=
        { id := s.nextTagId, versionId := version.id, name := tagName,
          createdAt := s.now }
      (some t, { s with tags := s.tags ++ [t], nextTagId := s.nextTagId + 1,
                        now := s.now + 1 })

/-- `getTagsForVersion`. -/
def getTagsForVersion (s : Store) (pacticipantName versionNumber : String) :
    List Tag :=
  match getVersion s pacticipantName versionNumber with
  | none => []
  | some version => s.tags.filter (fun t => t.versionId = version.id)

/-- Does version `v` carry a tag named `tagName`? (the join condition of
`getLatestVersionByTag`). -/
def versionHasTag (s : Store) (v : Version) (tagName : String) : Bool :=
  s.tags.any (fun t => t.versionId = v.id ∧ t.name = tagName)

/-- `getLatestVersionByTag`: versions of the pacticipant joined with tags of
the given name, ordered by descending `createdAt`, first row. -/
def getLatestVersionByTag (s : Store) (pacticipantName tagName : String) :
    Option Version :=
  match getPacticipant s pacticipantName with
  | none => none
  | some p =>
    argmaxCreatedAt
      (s.versions.filter (fun v => v.pacticipantId = p.id ∧ versionHasTag s v tagName))

-- ============ Pact Operations ============

/-- Row scan for the pact at the (consumer version, provider) key. -/
def findPact (l : List Pact) (consumerVersionId providerId : Nat) : Option Pact :=
  l.find? (fun pc => pc.consumerVersionId = consumerVersionId ∧ pc.providerId = providerId)

/-- `publishPact`, parameterized by the content digest function `sha`. -/
def publishPact (sha : String → String) (s : Store)
    (consumerName consumerVersion providerName : String)
    (content : String) (branch : Option String) : (Pact × Bool) × Store :=
  let ((_, consumerVer), s1) :=
    getOrCreateVersion s consumerName consumerVersion branch none
  let (provider, s2) := getOrCreatePacticipant s1 providerName
  let contentSha := sha content
  match findPact s2.pacts consumerVer.id provider.id with
  | some existing =>
    if existing.contentSha ≠ contentSha then
      ((({ existing with content := content, contentSha := contentSha } : Pact),
        false),
       { s2 with pacts := s2.pacts.map (fun pc =>
           if pc.id = existing.id then
             { pc with content := content, contentSha := contentSha }
           else pc) })
    else
      ((existing, false), s2)
  | none =>
    let pact : Pact :=
      { id := s2.nextPactId, consumerVersionId := consumerVer.id,
        providerId := provider.id, content := content,
        contentSha := contentSha, createdAt := s2.now }
    ((pact, true), { s2 with pacts := s2.pacts ++ [pact],
                             nextPactId := s2.nextPactId + 1,
                             now := s2.now + 1 })

/-- `getPactByContentSha`: first pact row whose hash matches. -/
def getPactByContentSha (s : Store) (sha : String) : Option Pact :=
  s.pacts.find? (fun pc => pc.contentSha = sha)

/-- The record shape returned by the pact read operations. -/
structure PactFull where
  pact : Pact
  consumer : Pacticipant
  provider : Pacticipant
  version : Version
deriving DecidableEq, Repr

/-- `getLatestPact`. -/
def getLatestPact (s : Store) (providerName consumerName : String)
    (tag : Option String) : Option PactFull :=
  match getPacticipant s consumerName, getPacticipant s providerName with
  | some consumer, some provider =>
    let version : Option Version :=
      match tag with
      | some t => getLatestVersionByTag s consumerName t
      | none =>
        argmaxCreatedAt (s.versions.filter (fun v =>
          v.pacticipantId = consumer.id ∧
            (findPact s.pacts v.id provider.id).isSome))
    match version with
    | none => none
    | some version =>
      match findPact s.pacts version.id provider.id with
      | none => none
      | some pact =>
        some { pact := pact, consumer := consumer, provider := provider,
               version := version }
  | _, _ => none

/-- `getLatestPactsForProvider`: every distinct consumer that has a pact
with this provider, each resolved to its latest pact independently. -/
def getLatestPactsForProvider (s : Store) (providerName : String) :
    List PactFull :=
  match getPacticipant s providerName with
  | none => []
  | some provider =>
    let consumerIds := dedupKeepFirst (s.pacts.filterMap (fun pc =>
      if pc.providerId = provider.id then
        (s.versions.find? (fun v => v.id = pc.consumerVersionId)).map
          (fun v => v.pacticipantId)
      else none))
    consumerIds.filterMap (fun cid =>
      (s.pacticipants.find? (fun p => p.id = cid)).bind (fun consumer =>
        getLatestPact s providerName consumer.name none))

-- ============ Verification Operations ============

/-- `publishVerification`: resolve the pact by content hash (absent result
mutates nothing), ensure the provider version, append a verification row. -/
def publishVerification (s : Store)
    (providerName _consumerName pactSha providerVersion : String)
    (success : Bool) (buildUrl : Option String) :
    Option Verification × Store :=
  match getPactByContentSha s pactSha with
  | none => (none, s)
  | some pact =>
    let ((_, providerVer), s1) :=
      getOrCreateVersion s providerName providerVersion none none
    let v : Verification :=
      { id := s1.nextVerificationId, pactId := pact.id,
        providerVersionId := providerVer.id, success := success,
        buildUrl := buildUrl, verifiedAt := s1.now }
    (some v, { s1 with verifications := s1.verifications ++ [v],
                       nextVerificationId := s1.nextVerificationId + 1,
                       now := s1.now + 1 })

-- ============ Matrix / Can-I-Deploy Operations ============

/-- One row of the compatibility matrix. -/
structure MatrixRow where
  consumerName : String
  consumerVersion : String
  providerName : String
  pactSha : String
  verificationResult : Option (Bool × Nat)
deriving DecidableEq, Repr

/-- The verification displayed on a matrix row for one pact: scoped to the
provider version carrying `toTag` when given, otherwise the latest
verification of the pact by any provider version. -/
def rowVerification (s : Store) (providerName : String) (pactId : Nat)
    (toTag : Option String) : Option Verification :=
  match toTag with
  | some t =>
    match getLatestVersionByTag s providerName t with
    | none => none
    | some providerVersion =>
      argmaxVerifiedAt (s.verifications.filter (fun vr =>
        vr.pactId = pactId ∧ vr.providerVersionId = providerVersion.id))
  | none =>
    argmaxVerifiedAt (s.verifications.filter (fun vr => vr.pactId = pactId))

/-- `getMatrix`. -/
def getMatrix (s : Store) (pacticipantName : String)
    (version toTag : Option String) : List MatrixRow :=
  match getPacticipant s pacticipantName with
  | none => []
  | some pacticipant =>
    (s.pacts.filterMap (fun pc =>
      (s.versions.find? (fun v => v.id = pc.consumerVersionId)).bind
        (fun consumerVersion =>
          if consumerVersion.pacticipantId = pacticipant.id then
            some (pc, consumerVersion)
          else none))).filterMap (fun pcv =>
      match version with
      | some vn =>
        if pcv.2.number ≠ vn then none else
          (s.pacticipants.find? (fun p => p.id = pcv.2.pacticipantId)).bind
            (fun consumer =>
              (s.pacticipants.find? (fun p => p.id = pcv.1.providerId)).map
                (fun provider =>
                  { consumerName := consumer.name,
                    consumerVersion := pcv.2.number,
                    providerName := provider.name,
                    pactSha := pcv.1.contentSha,
                    verificationResult :=
                      (rowVerification s provider.name pcv.1.id toTag).map
                        (fun vr => (vr.success, vr.verifiedAt)) }))
      | none =>
        (s.pacticipants.find? (fun p => p.id = pcv.2.pacticipantId)).bind
          (fun consumer =>
            (s.pacticipants.find? (fun p => p.id = pcv.1.providerId)).map
              (fun provider =>
                { consumerName := consumer.name,
                  consumerVersion := pcv.2.number,
                  providerName := provider.name,
                  pactSha := pcv.1.contentSha,
                  verificationResult :=
                    (rowVerification s provider.name pcv.1.id toTag).map
                      (fun vr => (vr.success, vr.verifiedAt)) })))

/-- The result record of `canIDeploy`. -/
structure DeployDecision where
  deployable : Bool
  reason : String
  matrix : List MatrixRow
deriving DecidableEq, Repr

/-- `canIDeploy`. -/
def canIDeploy (s : Store) (pacticipantName version : String)
    (toTag : Option String) : DeployDecision :=
  let matrix := getMatrix s pacticipantName (some version) toTag
  if matrix.isEmpty then
    { deployable := true, reason := "No pacts found for this version",
      matrix := [] }
  else
    let unverified := matrix.filter (fun row => row.verificationResult.isNone)
    let failed := matrix.filter (fun row =>
      match row.verificationResult with
      | some vr => ¬ vr.1
      | none => false)
    if unverified.length > 0 then
      { deployable := false,
        reason := toString unverified.length ++ " pact(s) have not been verified",
        matrix := matrix }
    else if failed.length > 0 then
      { deployable := false,
        reason := toString failed.length ++ " pact verification(s) failed",
        matrix := matrix }
    else
      { deployable := true, reason := "All pacts verified successfully",
        matrix := matrix }

-- ============ Environment Operations ============

/-- `getEnvironment`. -/
def getEnvironment (s : Store) (name : String) : Option Environment :=
  s.environments.find? (fun e => e.name = name)

/-- `getOrCreateEnvironment`: idempotent upsert; supplied fields overwrite,
absent fields are left unchanged. -/
def getOrCreateEnvironment (s : Store) (name : String)
    (displayName : Option String) (production : Option Bool) :
    Environment × Store :=
  match getEnvironment s name with
  | some existing =>
    if displayName.isSome ∨ production.isSome then
      let updated : Environment :=
        { existing with
          displayName := (match displayName with
                          | some d => some d
                          | none => existing.displayName),
          production := (match production with
                         | some p => p
                         | none => existing.production) }
      (updated, { s with environments := s.environments.map (fun e =>
          if e.id = existing.id then updated else e) })
    else
      (existing, s)
  | none =>
    let e : Environment :=
      { id := s.nextEnvironmentId, name := name, displayName := displayName,
        production := production.getD false, createdAt := s.now }
    (e, { s with environments := s.environments ++ [e],
                 nextEnvironmentId := s.nextEnvironmentId + 1,
                 now := s.now + 1 })

-- ============ Deployment Operations ============

/-- Outcome of `recordDeployment`: `notFound` models the `null` return for a
missing version, `uniqueViolation` models the SQLite error raised by the
`INSERT` when the migration's unique index
`deployed_versions_version_env_idx (version_id, environment_id)` is
violated, and `ok` carries the returned row. -/
inductive RecordDeploymentResult where
  | notFound
  | uniqueViolation
  | ok (d : DeployedVersion)
deriving DecidableEq, Repr

/-- `recordDeployment`. -/
def recordDeployment (s : Store)
    (pacticipantName versionNumber environmentName : String) :
    RecordDeploymentResult × Store :=
  match getVersion s pacticipantName versionNumber with
  | none => (.notFound, s)
  | some version =>
    let (environment, s1) := getOrCreateEnvironment s environmentName none none
    match s1.deployedVersions.find? (fun d =>
        d.versionId = version.id ∧ d.environmentId = environment.id ∧
          d.undeployedAt = none) with
    | some existing => (.ok existing, s1)
    | none =>
      if s1.deployedVersions.any (fun d =>
          d.versionId = version.id ∧ d.environmentId = environment.id) then
        (.uniqueViolation, s1)
      else
        let d : DeployedVersion :=
          { id := s1.nextDeployedVersionId, versionId := version.id,
            environmentId := environment.id, deployedAt := s1.now,
            undeployedAt := none }
        (.ok d, { s1 with deployedVersions := s1.deployedVersions ++ [d],
                          nextDeployedVersionId := s1.nextDeployedVersionId + 1,
                          now := s1.now + 1 })

/-- `recordUndeployment`. -/
def recordUndeployment (s : Store)
    (pacticipantName versionNumber environmentName : String) : Bool × Store :=
  match getVersion s pacticipantName versionNumber with
  | none => (false, s)
  | some version =>
    match getEnvironment s environmentName with
    | none => (false, s)
    | some environment =>
      match s.deployedVersions.find? (fun d =>
          d.versionId = version.id ∧ d.environmentId = environment.id ∧
            d.undeployedAt = none) with
      | none => (false, s)
      | some existing =>
        let upd := fun (d : DeployedVersion) =>
          if d.id = existing.id then { d with undeployedAt := some s.now } else d
        (true, { s with deployedVersions := s.deployedVersions.map upd,
                        now := s.now + 1 })

/-- `isVersionDeployed`. -/
def isVersionDeployed (s : Store) (pacticipantName versionNumber : String)
    (environmentName : Option String) : Bool :=
  match getVersion s pacticipantName versionNumber with
  | none => false
  | some version =>
    if strT environmentName then
      match getEnvironment s (environmentName.getD "") with
      | none => false
      | some environment =>
        s.deployedVersions.any (fun d =>
          d.versionId = version.id ∧ d.environmentId = environment.id ∧
            d.undeployedAt = none)
    else
      s.deployedVersions.any (fun d =>
        d.versionId = version.id ∧ d.undeployedAt = none)

-- ============ Pacts For Verification ============

/-- A consumer-version selector (all fields optional, as in the request
body). -/
structure Selector where
  latest : Option Bool := none
  tag : Option String := none
  consumer : Option String := none
  branch : Option String := none
  mainBranch : Option Bool := none
  deployed : Option Bool := none
  environment : Option String := none
deriving DecidableEq, Repr

/-- An entry of the pacts-for-verification result. -/
structure VerifiablePact where
  pact : Pact
  consumer : Pacticipant
  provider : Pacticipant
  version : Version
  notices : List String
deriving DecidableEq, Repr

/-- A single quote character, used by the selector notice templates. -/
def sglq : String := String.singleton (Char.ofNat 39)

/-- The subset of the candidate set kept by one selector: the selector's
predicates applied conjunctively, each active filter narrowing the
running list exactly as in the source. -/
def selectorFilter (s : Store) (base : List PactFull) (sel : Selector) :
    List PactFull :=
  let r1 := if strT sel.consumer then
      base.filter (fun r => sel.consumer = some r.consumer.name)
    else base
  let r2 := if strT sel.tag then
      r1.filter (fun r =>
        (getTagsForVersion s r.consumer.name r.version.number).any
          (fun t => sel.tag = some t.name))
    else r1
  let r3 := if strT sel.branch then
      r2.filter (fun r => r.version.branch = sel.branch)
    else r2
  let r4 := if boolT sel.mainBranch then
      r3.filter (fun r =>
        match getPacticipant s r.consumer.name with
        | some consumer => r.version.branch = consumer.mainBranch
        | none => false)
    else r3
  if boolT sel.deployed then
    r4.filter (fun r =>
      isVersionDeployed s r.consumer.name r.version.number sel.environment)
  else r4

/-- The notices one selector contributes, pushed in the source's order
(consumer, tag, branch, mainBranch, deployed, latest); they depend only on
the selector's own fields. -/
def selectorNotices (sel : Selector) : List String :=
  (if strT sel.consumer then
      ["consumer is " ++ sel.consumer.getD ""]
    else []) ++
  (if strT sel.tag then
      ["version tagged with " ++ sglq ++ sel.tag.getD "" ++ sglq]
    else []) ++
  (if strT sel.branch then
      ["version is on branch " ++ sglq ++ sel.branch.getD "" ++ sglq]
    else []) ++
  (if boolT sel.mainBranch then ["version is on the main branch"] else []) ++
  (if boolT sel.deployed then
      [if strT sel.environment then
          "version is deployed to " ++ sglq ++ sel.environment.getD "" ++ sglq
        else "version is currently deployed"]
    else []) ++
  (if boolT sel.latest then ["it is the latest pact"] else [])

/-- The entry first inserted for a pact: the selector's notices, or the
generic fallback when the selector contributed none. -/
def newEntry (r : PactFull) (notices : List String) : VerifiablePact :=
  { pact := r.pact, consumer := r.consumer, provider := r.provider,
    version := r.version,
    notices := if notices.isEmpty then
        ["it matches the consumer version selectors"]
      else notices }

/-- Merge a single matched pact into the accumulated map (an association
list keyed by pact id, in insertion order, as a JS `Map`): an already
present pact accumulates the selector's notices, a new pact is appended
with `newEntry`. -/
def mergeOne (notices : List String) (acc : List VerifiablePact)
    (r : PactFull) : List VerifiablePact :=
  if acc.any (fun e => e.pact.id = r.pact.id) then
    acc.map (fun e =>
      if e.pact.id = r.pact.id then { e with notices := e.notices ++ notices }
      else e)
  else
    acc ++ [newEntry r notices]

/-- Merge one selector's matches into the accumulated map. -/
def mergeMatches (acc : List VerifiablePact) (hits : List PactFull)
    (notices : List String) : List VerifiablePact :=
  hits.foldl (mergeOne notices) acc

/-- `getPactsForVerification`. -/
def getPactsForVerification (s : Store) (providerName : String)
    (selectors : List Selector) : List VerifiablePact :=
  match getPacticipant s providerName with
  | none => []
  | some _ =>
    let results := getLatestPactsForProvider s providerName
    if selectors.isEmpty then
      results.map (fun r =>
        { pact := r.pact, consumer := r.consumer, provider := r.provider,
          version := r.version,
          notices :=
            ["This pact is being verified because it is the latest pact"] })
    else
      selectors.foldl (fun acc sel =>
        mergeMatches acc (selectorFilter s results sel) (selectorNotices sel)) []

-- ============ HTTP route layer (for-verification response text) ============

/-- The notice-text template applied by the for-verification route handlers
to every notice returned by the broker object. -/
def noticeText (reason : String) : String :=
  "This pact is being verified because " ++ reason

/-- The notice texts of the for-verification HTTP response: the route maps
every broker notice through `noticeText`. -/
def forVerificationNoticeTexts (s : Store) (providerName : String)
    (selectors : List Selector) : List (List String) :=
  (getPactsForVerification s providerName selectors).map (fun r =>
    r.notices.map noticeText)

-- ============ Concrete example stores ============

/-- A digest function usable on concrete runs (any function works: the code
relies only on determinism). -/
def shaId : String → String := fun c => c

/-- Consumer `web` version `1.0.0` has pacts with providers `apiA` and
`apiB`; `apiA` version `2.0.0` verified its pact with failure, the `apiB`
pact is unverified. -/
def storeMixed : Store :=
  let s1 := (publishPact shaId Store.init "web" "1.0.0" "apiA" "XA" none).2
  let s2 := (publishPact shaId s1 "web" "1.0.0" "apiB" "XB" none).2
  (publishVerification s2 "apiA" "web" "XA" "2.0.0" false none).2

/-- Participant `svc` with versions `1` and `2`, both tagged `prod`. -/
def storeTags : Store :=
  let s1 := (getOrCreateVersion Store.init "svc" "1" none none).2
  let s2 := (getOrCreateVersion s1 "svc" "2" none none).2
  let s3 := (addTag s2 "svc" "1" "prod").2
  (addTag s3 "svc" "2" "prod").2

/-- One pact `web 1.0.0 → api`, successfully verified by `api 2.0.0`
(no provider version is tagged `staging`). -/
def storeVerified : Store :=
  let s1 := (publishPact shaId Store.init "web" "1.0.0" "api" "X" none).2
  (publishVerification s1 "api" "web" "X" "2.0.0" true none).2

/-- Version `web 1.0.0` exists; nothing is deployed yet. -/
def storeVersionOnly : Store :=
  (getOrCreateVersion Store.init "web" "1.0.0" none none).2

/-- `web 1.0.0` deployed to `prod`. -/
def storeDeployed : Store :=
  (recordDeployment storeVersionOnly "web" "1.0.0" "prod").2

/-- `web 1.0.0` deployed to `prod`, then undeployed. -/
def storeUndeployed : Store :=
  (recordUndeployment storeDeployed "web" "1.0.0" "prod").2

/-- Two consumers of provider `api`: `web 1.0.0` (tagged `main`) and
`mob 2.0.0` (tagged `main` and deployed to `prod`). -/
def storeSel : Store :=
  let s1 := (publishPact shaId Store.init "web" "1.0.0" "api" "X1" none).2
  let s2 := (publishPact shaId s1 "mob" "2.0.0" "api" "X2" none).2
  let s3 := (addTag s2 "web" "1.0.0" "main").2
  let s4 := (addTag s3 "mob" "2.0.0" "main").2
  (recordDeployment s4 "mob" "2.0.0" "prod").2

/-- The selector `{tag: "main"}`. -/
def selTagMain : Selector := { tag := some "main" }

/-- The selector `{deployed: true, environment: "prod"}`. -/
def selDeployedProd : Selector :=
  { deployed := some true, environment := some "prod" }

/-- Two pacts with identical content `X` (hence identical hash) under
different providers: `web 1.0.0 → provA` and `web2 1.0.0 → provB`. -/
def storeTwoProviders : Store :=
  let s1 := (publishPact shaId Store.init "web" "1.0.0" "provA" "X" none).2
  (publishPact shaId s1 "web2" "1.0.0" "provB" "X" none).2

/-- One pact `web 1.0.0 → api` with content `X`, not yet verified. -/
def storeOnePact : Store :=
  (publishPact shaId Store.init "web" "1.0.0" "api" "X" none).2

/-- The expected notices of an output entry of `getPactsForVerification`
matched by the listed selectors, in order: the first matching selector
contributes its notices (or the generic fallback when it has none), every
further matching selector appends its own notices. -/
def accNotices : List Selector → List String
  | [] => []
  | sel :: rest =>
    (if (selectorNotices sel).isEmpty then
        ["it matches the consumer version selectors"]
      else selectorNotices sel) ++
    (rest.map selectorNotices).flatten

/-- The entry stored for a given pact id in the accumulated selector
output. -/
def findEntry (l : List VerifiablePact) (pid : Nat) : Option VerifiablePact :=
  l.find? (fun e => e.pact.id = pid)

/-- The selectors, in order, whose filtered subset of the full candidate
set contains the pact with the given id. -/
def matchSelectors (s : Store) (base : List PactFull) (pid : Nat)
    (selectors : List Selector) : List Selector :=
  selectors.filter (fun sel =>
    (selectorFilter s base sel).any (fun x => x.pact.id = pid))

-- ============ General lemmas about the query model ============

theorem argmaxCreatedAt_eq_none {l : List Version} :
    argmaxCreatedAt l = none ↔ l = [] := by
  cases l with
  | nil => simp [argmaxCreatedAt]
  | cons v vs =>
    simp only [argmaxCreatedAt]
    cases argmaxCreatedAt vs with
    | none => simp
    | some w => by_cases h : v.createdAt < w.createdAt <;> simp [h]

theorem argmaxCreatedAt_mem {l : List Version} {v : Version}
    (h : argmaxCreatedAt l = some v) : v ∈ l := by
  induction l with
  | nil => simp [argmaxCreatedAt] at h
  | cons x xs ih =>
    simp only [argmaxCreatedAt] at h
    cases hx : argmaxCreatedAt xs with
    | none => rw [hx] at h; simp at h; simp [h]
    | some w =>
      rw [hx] at h
      by_cases hc : x.createdAt < w.createdAt
      · simp [hc] at h; subst h; exact List.mem_cons_of_mem _ (ih hx)
      · simp [hc] at h; simp [h]

theorem argmaxCreatedAt_max {l : List Version} {v : Version}
    (h : argmaxCreatedAt l = some v) :
    ∀ w ∈ l, w.createdAt ≤ v.createdAt := by
  induction l generalizing v with
  | nil => simp [argmaxCreatedAt] at h
  | cons x xs ih =>
    simp only [argmaxCreatedAt] at h
    intro w hw
    cases hx : argmaxCreatedAt xs with
    | none =>
      rw [hx] at h; simp at h; subst h
      rcases List.mem_cons.mp hw with hw | hw
      · simp [hw]
      · exact absurd (argmaxCreatedAt_eq_none.mp hx ▸ hw) (List.not_mem_nil w)
    | some u =>
      rw [hx] at h
      by_cases hc : x.createdAt < u.createdAt
      · simp [hc] at h; subst h
        rcases List.mem_cons.mp hw with hw | hw
        · exact le_of_lt (hw ▸ hc)
        · exact ih hx w hw
      · simp [hc] at h; subst h
        rcases List.mem_cons.mp hw with hw | hw
        · simp [hw]
        · exact le_trans (ih hx w hw) (le_of_not_lt hc)

theorem argmaxVerifiedAt_eq_none {l : List Verification} :
    argmaxVerifiedAt l = none ↔ l = [] := by
  cases l with
  | nil => simp [argmaxVerifiedAt]
  | cons v vs =>
    simp only [argmaxVerifiedAt]
    cases argmaxVerifiedAt vs with
    | none => simp
    | some w => by_cases h : v.verifiedAt < w.verifiedAt <;> simp [h]

theorem argmaxVerifiedAt_mem {l : List Verification} {v : Verification}
    (h : argmaxVerifiedAt l = some v) : v ∈ l := by
  induction l with
  | nil => simp [argmaxVerifiedAt] at h
  | cons x xs ih =>
    simp only [argmaxVerifiedAt] at h
    cases hx : argmaxVerifiedAt xs with
    | none => rw [hx] at h; simp at h; simp [h]
    | some w =>
      rw [hx] at h
      by_cases hc : x.verifiedAt < w.verifiedAt
      · simp [hc] at h; subst h; exact List.mem_cons_of_mem _ (ih hx)
      · simp [hc] at h; simp [h]

theorem find?_append_some {α} {l1 l2 : List α} {p : α → Bool} {x : α}
    (h : l1.find? p = some x) : (l1 ++ l2).find? p = some x := by
  rw [List.find?_append, h]; rfl

theorem find?_append_none {α} {l1 l2 : List α} {p : α → Bool}
    (h : l1.find? p = none) : (l1 ++ l2).find? p = l2.find? p := by
  rw [List.find?_append, h]; rfl

theorem gocP_of_found {s : Store} {n : String} {p : Pacticipant}
    (h : getPacticipant s n = some p) : getOrCreatePacticipant s n = (p, s) := by
  simp [getOrCreatePacticipant, h]

theorem gocP_lookup {s : Store} {n : String} {p : Pacticipant} {s' : Store}
    (h : getOrCreatePacticipant s n = (p, s')) : getPacticipant s' n = some p := by
  unfold getOrCreatePacticipant at h
  cases hf : getPacticipant s n with
  | some q => rw [hf] at h; cases h; exact hf
  | none =>
    rw [hf] at h
    cases h
    unfold getPacticipant at hf ⊢
    simp only []
    rw [find?_append_none hf]
    simp

theorem gocP_pacticipants_ext {s : Store} {n : String} {p : Pacticipant}
    {s' : Store} (h : getOrCreatePacticipant s n = (p, s')) :
    ∃ ext, s'.pacticipants = s.pacticipants ++ ext := by
  unfold getOrCreatePacticipant at h
  cases hf : getPacticipant s n with
  | some q => rw [hf] at h; cases h; exact ⟨[], by simp⟩
  | none => rw [hf] at h; cases h; exact ⟨_, rfl⟩

theorem gocP_frame {s : Store} {n : String} {p : Pacticipant} {s' : Store}
    (h : getOrCreatePacticipant s n = (p, s')) :
    s'.versions = s.versions ∧ s'.tags = s.tags ∧ s'.pacts = s.pacts ∧
    s'.verifications = s.verifications ∧ s'.environments = s.environments ∧
    s'.deployedVersions = s.deployedVersions ∧
    s'.nextVersionId = s.nextVersionId ∧ s'.nextPactId = s.nextPactId ∧
    s'.nextVerificationId = s.nextVerificationId := by
  unfold getOrCreatePacticipant at h
  cases hf : getPacticipant s n with
  | some q => rw [hf] at h; cases h; exact ⟨rfl, rfl, rfl, rfl, rfl, rfl, rfl, rfl, rfl⟩
  | none => rw [hf] at h; cases h; exact ⟨rfl, rfl, rfl, rfl, rfl, rfl, rfl, rfl, rfl⟩

theorem getPacticipant_ext {s s2 : Store} {n : String} {p : Pacticipant}
    {ext : List Pacticipant} (h : getPacticipant s n = some p)
    (he : s2.pacticipants = s.pacticipants ++ ext) :
    getPacticipant s2 n = some p := by
  unfold getPacticipant at h ⊢
  rw [he]
  exact find?_append_some h

theorem findVersion_ext {l ext : List Version} {pid : Nat} {vn : String}
    {v : Version} (h : findVersion l pid vn = some v) :
    findVersion (l ++ ext) pid vn = some v :=
  find?_append_some h

theorem gocV_of_found {s : Store} {n vn : String} {b u : Option String}
    {p : Pacticipant} {v : Version}
    (hp : getPacticipant s n = some p)
    (hv : findVersion s.versions p.id vn = some v) :
    getOrCreateVersion s n vn b u = ((p, v), s) := by
  unfold getOrCreateVersion
  rw [gocP_of_found hp]
  simp [hv]

theorem gocV_post {s : Store} {n vn : String} {b u : Option String}
    {p : Pacticipant} {v : Version} {s' : Store}
    (h : getOrCreateVersion s n vn b u = ((p, v), s')) :
    getPacticipant s' n = some p ∧
    findVersion s'.versions p.id vn = some v ∧
    (∃ ext, s'.pacticipants = s.pacticipants ++ ext) ∧
    (∃ ext, s'.versions = s.versions ++ ext) ∧
    s'.tags = s.tags ∧ s'.pacts = s.pacts ∧
    s'.verifications = s.verifications ∧ s'.environments = s.environments ∧
    s'.deployedVersions = s.deployedVersions ∧
    s'.nextPactId = s.nextPactId ∧
    s'.nextVerificationId = s.nextVerificationId := by
  unfold getOrCreateVersion at h
  rcases hg : getOrCreatePacticipant s n with ⟨q, s1⟩
  rw [hg] at h
  simp only [] at h
  obtain ⟨hfv, hft, hfp, hfvf, hfe, hfd, hfnv, hfnp, hfnn⟩ := gocP_frame hg
  obtain ⟨ext1, hext1⟩ := gocP_pacticipants_ext hg
  cases hf : findVersion s1.versions q.id vn with
  | some w =>
    rw [hf] at h
    cases h
    exact ⟨gocP_lookup hg, hf, ⟨ext1, hext1⟩, ⟨[], by simp [hfv]⟩,
           hft, hfp, hfvf, hfe, hfd, hfnp, hfnn⟩
  | none =>
    rw [hf] at h
    cases h
    have h1 := gocP_lookup hg
    have h3 : findVersion
        (s1.versions ++
          [{ id := s1.nextVersionId, pacticipantId := p.id, number := vn,
             branch := b, buildUrl := u, createdAt := s1.now }]) p.id vn =
        some { id := s1.nextVersionId, pacticipantId := p.id, number := vn,
               branch := b, buildUrl := u, createdAt := s1.now } := by
      unfold findVersion at hf ⊢
      rw [find?_append_none hf]
      simp
    have h2 : ∃ ext,
        s1.versions ++
          [{ id := s1.nextVersionId, pacticipantId := p.id, number := vn,
             branch := b, buildUrl := u, createdAt := s1.now }] =
        s.versions ++ ext := ⟨_, by rw [hfv]⟩
    exact ⟨h1, h3, ⟨ext1, hext1⟩, h2, hft, hfp, hfvf, hfe, hfd, hfnp, hfnn⟩

theorem argmaxVerifiedAt_max {l : List Verification} {v : Verification}
    (h : argmaxVerifiedAt l = some v) :
    ∀ w ∈ l, w.verifiedAt ≤ v.verifiedAt := by
  induction l generalizing v with
  | nil => simp [argmaxVerifiedAt] at h
  | cons x xs ih =>
    simp only [argmaxVerifiedAt] at h
    intro w hw
    cases hx : argmaxVerifiedAt xs with
    | none =>
      rw [hx] at h; simp at h; subst h
      rcases List.mem_cons.mp hw with hw | hw
      · simp [hw]
      · exact absurd (argmaxVerifiedAt_eq_none.mp hx ▸ hw) (List.not_mem_nil w)
    | some u =>
      rw [hx] at h
      by_cases hc : x.verifiedAt < u.verifiedAt
      · simp [hc] at h; subst h
        rcases List.mem_cons.mp hw with hw | hw
        · exact le_of_lt (hw ▸ hc)
        · exact ih hx w hw
      · simp [hc] at h; subst h
        rcases List.mem_cons.mp hw with hw | hw
        · simp [hw]
        · exact le_trans (ih hx w hw) (le_of_not_lt hc)

-- ============ Claim theorems ============

/-- **C4**: `recordDeployment` is idempotent on an active deployment, but on
a (version, environment) pair whose previous deployment was undeployed the
promised fresh insert instead violates the unique index
`deployed_versions_version_env_idx`: redeploying `web 1.0.0` to `prod`
after an undeploy raises a conflict rather than creating a new row. -/
theorem recordDeployment_redeploy_conflict :
    (recordDeployment storeDeployed "web" "1.0.0" "prod").1 =
      RecordDeploymentResult.ok
        { id := 1, versionId := 1, environmentId := 1, deployedAt := 3,
          undeployedAt := none } ∧
    (recordUndeployment storeDeployed "web" "1.0.0" "prod").1 = true ∧
    (recordDeployment storeUndeployed "web" "1.0.0" "prod").1 =
      RecordDeploymentResult.uniqueViolation := by
  exact ⟨by decide, by decide, by decide⟩

/-- **C8**: with an empty selector list the broker's fixed notice already
contains the sentence prefix, and the route handler prefixes it again, so
the externally delivered notice text is a doubled sentence rather than
"This pact is being verified because it is the latest pact". -/
theorem forVerification_default_notice_doubled :
    (getPactsForVerification storeOnePact "api" []).map
        (fun r => r.notices) =
      [["This pact is being verified because it is the latest pact"]] ∧
    forVerificationNoticeTexts storeOnePact "api" [] =
      [["This pact is being verified because This pact is being verified because it is the latest pact"]] := by
  exact ⟨by decide, by decide⟩

/-- **C5**: `getLatestVersionByTag` returns a version of the named
pacticipant carrying the tag whose `createdAt` is maximal among all such
versions, and returns absent exactly when the pacticipant does not exist
or none of its versions carries the tag. -/
theorem getLatestVersionByTag_spec (s : Store) (pname tagName : String) :
    (∀ v, getLatestVersionByTag s pname tagName = some v →
      ∃ p, getPacticipant s pname = some p ∧ v ∈ s.versions ∧
        v.pacticipantId = p.id ∧ versionHasTag s v tagName = true ∧
        ∀ w ∈ s.versions, w.pacticipantId = p.id →
          versionHasTag s w tagName = true → w.createdAt ≤ v.createdAt) ∧
    (getLatestVersionByTag s pname tagName = none ↔
      (getPacticipant s pname = none ∨
        ∀ p, getPacticipant s pname = some p →
          ∀ w ∈ s.versions, w.pacticipantId = p.id →
            versionHasTag s w tagName = false)) := by
  constructor
  · intro v hv
    unfold getLatestVersionByTag at hv
    cases hp : getPacticipant s pname with
    | none => rw [hp] at hv; cases hv
    | some p =>
      rw [hp] at hv
      have hmem := argmaxCreatedAt_mem hv
      have hpred := (List.mem_filter.mp hmem).2
      simp only [decide_eq_true_eq] at hpred
      refine ⟨p, rfl, (List.mem_filter.mp hmem).1, hpred.1, hpred.2, ?_⟩
      intro w hw hpid htag
      exact argmaxCreatedAt_max hv w
        (List.mem_filter.mpr ⟨hw, by simp [hpid, htag]⟩)
  · unfold getLatestVersionByTag
    cases hp : getPacticipant s pname with
    | none => simp
    | some p =>
      rw [argmaxCreatedAt_eq_none, List.filter_eq_nil_iff]
      constructor
      · intro h
        right
        intro p' hp' w hw hpid
        have hpp : p = p' := Option.some.inj hp'
        subst hpp
        have := h w hw
        simp only [decide_eq_true_eq, not_and] at this
        by_contra hne
        have hb : versionHasTag s w tagName = true := by
          cases hbt : versionHasTag s w tagName with
          | false => exact absurd hbt hne
          | true => rfl
        exact (this hpid) hb
      · intro h w hw
        rcases h with h | h
        · cases h
        · have := h p rfl w hw
          simp only [decide_eq_true_eq, not_and]
          intro hpid
          rw [this hpid]
          simp

/-- Witness for **C5** at `storeTags`: versions `1` and `2` of `svc` both
carry tag `prod`; the theorem applied to the returned version `2` shows
version `1` carries the tag and its creation time is bounded by that of
version `2`. -/
theorem getLatestVersionByTag_spec_w :
    versionHasTag storeTags
        { id := 1, pacticipantId := 1, number := "1", branch := none,
          buildUrl := none, createdAt := 1 } "prod" = true ∧
    (1 : Nat) ≤ 2 := by
  obtain ⟨p, hp, hmem, hpid, htag, hmax⟩ :=
    (getLatestVersionByTag_spec storeTags "svc" "prod").1
      { id := 2, pacticipantId := 1, number := "2", branch := none,
        buildUrl := none, createdAt := 2 } (by decide)
  have hpv : p = { id := 1, name := "svc", mainBranch := some "main",
                   createdAt := 0 } := by
    have hcomp : getPacticipant storeTags "svc" =
        some { id := 1, name := "svc", mainBranch := some "main",
               createdAt := 0 } := by decide
    rw [hcomp] at hp
    exact (Option.some.inj hp).symm
  subst hpv
  refine ⟨by decide, ?_⟩
  exact hmax
    { id := 1, pacticipantId := 1, number := "1", branch := none,
      buildUrl := none, createdAt := 1 } (by decide) (by decide) (by decide)

/-- **C10**: `publishVerification` resolves the target pact from the
content hash alone; whenever some pact has the hash, the recorded
verification is attached to that pact's id irrespective of the provider
and consumer names supplied by the caller. -/
theorem publishVerification_resolves_by_sha_only
    (s : Store) (provName consName pactSha pv : String) (succ : Bool)
    (bu : Option String) (pact : Pact)
    (hp : getPactByContentSha s pactSha = some pact) :
    ∃ v s', publishVerification s provName consName pactSha pv succ bu =
        (some v, s') ∧ v.pactId = pact.id := by
  unfold publishVerification
  rw [hp]
  rcases hg : getOrCreateVersion s provName pv none none with ⟨⟨q, ver⟩, s1⟩
  simp only []
  exact ⟨_, _, rfl, rfl⟩

/-- Witness for **C10** at `storeTwoProviders`: pacts of `provA` (id 2) and
`provB` (id 4) share content hash `X`; a verification published naming
`provB` is recorded against pact 1, whose provider is `provA`. -/
theorem publishVerification_resolves_by_sha_only_w :
    ({ id := 1, consumerVersionId := 1, providerId := 2, content := "X",
       contentSha := "X", createdAt := 3 } : Pact).providerId = 2 ∧
    getPacticipant storeTwoProviders "provB" =
      some { id := 4, name := "provB", mainBranch := some "main",
             createdAt := 6 } ∧
    (publishVerification storeTwoProviders "provB" "web2" "X" "9.9.9" true
        none).1.map Verification.pactId = some 1 := by
  obtain ⟨v, s', hv, hpid⟩ :=
    publishVerification_resolves_by_sha_only storeTwoProviders "provB" "web2"
      "X" "9.9.9" true none
      { id := 1, consumerVersionId := 1, providerId := 2, content := "X",
        contentSha := "X", createdAt := 3 } (by decide)
  refine ⟨rfl, by decide, ?_⟩
  rw [hv]
  simp [hpid]

/-- **C9**: when `publishPact` finds an existing pact row at the
(consumer version, provider) key and the hash differs, the in-place update
rewrites only `content` and `contentSha`: the returned row and every stored
row keep their `id`, `createdAt`, `consumerVersionId` and `providerId`, and
rows at other ids are byte-identical. -/
theorem publishPact_update_preserves_row
    (sha : String → String) (s : Store) (cn cv pn content : String)
    (branch : Option String) (c : Pacticipant) (V : Version) (s1 : Store)
    (P : Pacticipant) (s2 : Store) (ex : Pact)
    (h1 : getOrCreateVersion s cn cv branch none = ((c, V), s1))
    (h2 : getOrCreatePacticipant s1 pn = (P, s2))
    (h3 : findPact s2.pacts V.id P.id = some ex)
    (h4 : ex.contentSha ≠ sha content) :
    ∃ p s', publishPact sha s cn cv pn content branch = ((p, false), s') ∧
      p.id = ex.id ∧ p.createdAt = ex.createdAt ∧
      p.consumerVersionId = ex.consumerVersionId ∧
      p.providerId = ex.providerId ∧
      p.content = content ∧ p.contentSha = sha content ∧
      s'.versions = s2.versions ∧ s'.verifications = s2.verifications ∧
      s'.pacts.length = s2.pacts.length ∧
      ∀ i, (hi : i < s2.pacts.length) → (hj : i < s'.pacts.length) →
        (s'.pacts.get ⟨i, hj⟩).id = (s2.pacts.get ⟨i, hi⟩).id ∧
        (s'.pacts.get ⟨i, hj⟩).createdAt = (s2.pacts.get ⟨i, hi⟩).createdAt ∧
        (s'.pacts.get ⟨i, hj⟩).consumerVersionId =
          (s2.pacts.get ⟨i, hi⟩).consumerVersionId ∧
        (s'.pacts.get ⟨i, hj⟩).providerId = (s2.pacts.get ⟨i, hi⟩).providerId ∧
        ((s2.pacts.get ⟨i, hi⟩).id ≠ ex.id →
          s'.pacts.get ⟨i, hj⟩ = s2.pacts.get ⟨i, hi⟩) := by
  unfold publishPact
  rw [h1]
  simp only []
  rw [h2]
  simp only []
  rw [h3]
  simp only [if_pos h4]
  refine ⟨_, _, rfl, rfl, rfl, rfl, rfl, rfl, rfl, rfl, rfl, by simp, ?_⟩
  intro i hi hj
  simp only [List.get_eq_getElem, List.getElem_map]
  by_cases hcase : (s2.pacts.get ⟨i, hi⟩).id = ex.id
  · simp only [List.get_eq_getElem] at hcase
    simp [hcase]
  · simp only [List.get_eq_getElem] at hcase
    simp [hcase]

/-- Witness for **C9**: republishing the `web 1.0.0 → api` pact with new
content `Y` keeps the row's original creation time 3 while swapping the
content hash to `Y` and returning `created = false`. -/
theorem publishPact_update_preserves_row_w :
    (publishPact shaId storeOnePact "web" "1.0.0" "api" "Y" none).1.1.createdAt
        = 3 ∧
    (publishPact shaId storeOnePact "web" "1.0.0" "api" "Y" none).1.1.contentSha
        = "Y" ∧
    (publishPact shaId storeOnePact "web" "1.0.0" "api" "Y" none).1.2 = false := by
  obtain ⟨p, s', hps, hid, hca, hcv, hpr, hct, hsh, -, -, -, -⟩ :=
    publishPact_update_preserves_row shaId storeOnePact "web" "1.0.0" "api"
      "Y" none
      { id := 1, name := "web", mainBranch := some "main", createdAt := 0 }
      { id := 1, pacticipantId := 1, number := "1.0.0", branch := none,
        buildUrl := none, createdAt := 1 }
      storeOnePact
      { id := 2, name := "api", mainBranch := some "main", createdAt := 2 }
      storeOnePact
      { id := 1, consumerVersionId := 1, providerId := 2, content := "X",
        contentSha := "X", createdAt := 3 }
      (by decide) (by decide) (by decide) (by decide)
  rw [hps]
  exact ⟨hca, hsh, rfl⟩

/-- One successful `publishVerification` call: the pact is resolved by
hash, the provider version is ensured, and exactly one verification row is
appended, taking the next verification id. -/
theorem pubver_found (s : Store) (provName consName pactSha pv : String)
    (succ : Bool) (bu : Option String) (pact : Pact)
    (hp : getPactByContentSha s pactSha = some pact) :
    ∃ v s' q ver,
      publishVerification s provName consName pactSha pv succ bu =
        (some v, s') ∧
      v.pactId = pact.id ∧ v.success = succ ∧ v.providerVersionId = ver.id ∧
      v.id = s.nextVerificationId ∧
      s'.pacts = s.pacts ∧
      s'.verifications = s.verifications ++ [v] ∧
      s'.nextVerificationId = v.id + 1 ∧
      getPacticipant s' provName = some q ∧
      findVersion s'.versions q.id pv = some ver ∧
      (∀ q0 ver0, getPacticipant s provName = some q0 →
        findVersion s.versions q0.id pv = some ver0 →
        v.providerVersionId = ver0.id) := by
  unfold publishVerification
  rw [hp]
  rcases hg : getOrCreateVersion s provName pv none none with ⟨⟨q, ver⟩, s1⟩
  simp only []
  obtain ⟨hq, hv, -, -, -, hpacts, hverifs, -, -, -, hnn⟩ := gocV_post hg
  refine ⟨_, _, q, ver, rfl, rfl, rfl, rfl, hnn, hpacts, ?_, ?_, hq, hv, ?_⟩
  · simp [hverifs]
  · simp
  · intro q0 ver0 h10 h20
    have h30 := (gocV_of_found (b := none) (u := none) h10 h20).symm.trans hg
    have h40 : ver0 = ver := congrArg (fun x => x.1.2) h30
    simp [h40]

/-- **C7**: `publishVerification` returns absent and leaves the store
untouched when no pact carries the hash; otherwise it ensures the provider
version and appends a fresh verification row on every call — a second
identical call appends a second distinct row for the same
pact/provider-version pair, never overwriting. -/
theorem publishVerification_spec (s : Store)
    (provName consName pactSha pv : String) (succ : Bool)
    (bu : Option String) :
    (getPactByContentSha s pactSha = none →
      publishVerification s provName consName pactSha pv succ bu = (none, s)) ∧
    (∀ pact, getPactByContentSha s pactSha = some pact →
      ∃ v s', publishVerification s provName consName pactSha pv succ bu =
          (some v, s') ∧
        v.pactId = pact.id ∧ v.success = succ ∧
        s'.verifications = s.verifications ++ [v] ∧
        getVersion s' provName pv ≠ none ∧
        ∃ v2 s2, publishVerification s' provName consName pactSha pv succ bu =
            (some v2, s2) ∧
          v2.pactId = pact.id ∧ v2.providerVersionId = v.providerVersionId ∧
          v2.id ≠ v.id ∧ s2.verifications = s.verifications ++ [v, v2]) := by
  constructor
  · intro h
    unfold publishVerification
    rw [h]
  · intro pact hp
    obtain ⟨v, s', q, ver, hps, hpid, hsucc, hpv, hid, hpacts', hverifs',
            hnvi', hq', hv', -⟩ :=
      pubver_found s provName consName pactSha pv succ bu pact hp
    have hp2 : getPactByContentSha s' pactSha = some pact := by
      unfold getPactByContentSha at hp ⊢
      rw [hpacts']
      exact hp
    obtain ⟨v2, s2, q2, ver2, hps2, hpid2, hsucc2, hpv2, hid2, hpacts2,
            hverifs2, hnvi2, hq2, hv2, htr⟩ :=
      pubver_found s' provName consName pactSha pv succ bu pact hp2
    refine ⟨v, s', hps, hpid, hsucc, hverifs', ?_, v2, s2, hps2, hpid2,
            ?_, ?_, ?_⟩
    · unfold getVersion
      rw [hq']
      simp [hv']
    · rw [htr q ver hq' hv', hpv]
    · rw [hid2, hnvi']
      simp
    · rw [hverifs2, hverifs']
      simp

/-- Witness for **C7** at `storeOnePact`: the pact with hash `X` exists,
and two identical verification publications leave two historical rows. -/
theorem publishVerification_spec_w :
    getPactByContentSha storeOnePact "X" =
      some { id := 1, consumerVersionId := 1, providerId := 2, content := "X",
             contentSha := "X", createdAt := 3 } ∧
    (publishVerification storeOnePact "api" "web" "X" "2.0.0" true
        none).2.verifications.length = 1 ∧
    (publishVerification
        (publishVerification storeOnePact "api" "web" "X" "2.0.0" true none).2
        "api" "web" "X" "2.0.0" true none).2.verifications.length = 2 := by
  obtain ⟨-, h2⟩ :=
    publishVerification_spec storeOnePact "api" "web" "X" "2.0.0" true none
  obtain ⟨v, s', hps, -, -, hver, -, v2, s2, hps2, -, -, -, hver2⟩ :=
    h2 { id := 1, consumerVersionId := 1, providerId := 2, content := "X",
         contentSha := "X", createdAt := 3 } (by decide)
  refine ⟨by decide, ?_, ?_⟩
  · rw [hps]
    show List.length s'.verifications = 1
    rw [hver]
    simp
    decide
  · rw [hps]
    show (publishVerification s' "api" "web" "X" "2.0.0" true
        none).2.verifications.length = 2
    rw [hps2]
    show List.length s2.verifications = 2
    rw [hver2]
    simp
    decide

/-- Appending a pact row at the key that was absent makes the key scan find
exactly that row. -/
theorem findPact_append_new {l : List Pact} {cvid pid : Nat}
    (h : findPact l cvid pid = none) (q : Pact)
    (hq1 : q.consumerVersionId = cvid) (hq2 : q.providerId = pid) :
    findPact (l ++ [q]) cvid pid = some q := by
  unfold findPact at h ⊢
  rw [find?_append_none h]
  simp [hq1, hq2]

/-- The in-place content update of `publishPact` does not move the pact at
the scanned key: the scan finds the updated row. -/
theorem findPact_map_upd {l : List Pact} {cvid pid : Nat} {ex : Pact}
    (h : findPact l cvid pid = some ex) (content' sha' : String) :
    findPact (l.map (fun pc =>
        if pc.id = ex.id then
          { pc with content := content', contentSha := sha' }
        else pc)) cvid pid =
      some { ex with content := content', contentSha := sha' } := by
  unfold findPact at h ⊢
  rw [List.find?_map]
  have hcomp : ((fun pc : Pact =>
      decide (pc.consumerVersionId = cvid ∧ pc.providerId = pid)) ∘
        (fun pc : Pact =>
          if pc.id = ex.id then
            { pc with content := content', contentSha := sha' }
          else pc)) =
      (fun pc : Pact =>
        decide (pc.consumerVersionId = cvid ∧ pc.providerId = pid)) := by
    funext pc
    by_cases hc : pc.id = ex.id <;> simp [hc]
  rw [hcomp, h]
  simp

/-- After any `publishPact` call, the returned row has the content's hash,
sits at the (consumer version, provider) key in the new store, and the
consumer/version/provider lookups resolve in the new store. -/
theorem publishPact_post (sha : String → String) (s : Store)
    (cn cv pn content : String) (branch : Option String) :
    ∃ row flag s' c V P,
      publishPact sha s cn cv pn content branch = ((row, flag), s') ∧
      row.contentSha = sha content ∧
      getPacticipant s' cn = some c ∧
      findVersion s'.versions c.id cv = some V ∧
      getPacticipant s' pn = some P ∧
      findPact s'.pacts V.id P.id = some row := by
  rcases h1 : getOrCreateVersion s cn cv branch none with ⟨⟨c, V⟩, sA⟩
  rcases h2 : getOrCreatePacticipant sA pn with ⟨P, sB⟩
  obtain ⟨hqA, hvA, -, -, -, -, -, -, -, -, -⟩ := gocV_post h1
  obtain ⟨hfv, -, -, -, -, -, -, -, -⟩ := gocP_frame h2
  obtain ⟨ext2, hext2⟩ := gocP_pacticipants_ext h2
  have hqB : getPacticipant sB cn = some c := getPacticipant_ext hqA hext2
  have hPB : getPacticipant sB pn = some P := gocP_lookup h2
  have hvB : findVersion sB.versions c.id cv = some V := by rw [hfv]; exact hvA
  unfold publishPact
  rw [h1]
  simp only []
  rw [h2]
  simp only []
  cases h3 : findPact sB.pacts V.id P.id with
  | none =>
    simp only []
    refine ⟨_, _, _, c, V, P, rfl, rfl, hqB, hvB, hPB, ?_⟩
    exact findPact_append_new h3 _ rfl rfl
  | some ex =>
    simp only []
    by_cases h4 : ex.contentSha ≠ sha content
    · rw [if_pos h4]
      refine ⟨_, _, _, c, V, P, rfl, rfl, hqB, hvB, hPB, ?_⟩
      exact findPact_map_upd h3 content (sha content)
    · rw [if_neg h4]
      push_neg at h4
      exact ⟨ex, false, sB, c, V, P, rfl, h4, hqB, hvB, hPB, h3⟩

/-- When the pact at the key already exists with the content's exact hash,
`publishPact` is a pure no-op returning the stored row and `false`. -/
theorem publishPact_found_state (sha : String → String) (s1 : Store)
    (cn cv pn content : String) (branch : Option String)
    (c : Pacticipant) (V : Version) (P : Pacticipant) (row : Pact)
    (hq : getPacticipant s1 cn = some c)
    (hv : findVersion s1.versions c.id cv = some V)
    (hP : getPacticipant s1 pn = some P)
    (hrow : findPact s1.pacts V.id P.id = some row)
    (hsha : row.contentSha = sha content) :
    publishPact sha s1 cn cv pn content branch = ((row, false), s1) := by
  unfold publishPact
  rw [gocV_of_found hq hv]
  simp only []
  rw [gocP_of_found hP]
  simp only []
  rw [hrow]
  simp only []
  rw [if_neg (not_not_intro hsha)]

/-- **C2**: republishing the same (consumer, version, provider, content) a
second time returns `created = false`, the same content hash, and leaves
the store byte-identical to its state after the first call. -/
theorem publishPact_republish_noop (sha : String → String) (s : Store)
    (cn cv pn content : String) (branch : Option String) :
    (publishPact sha (publishPact sha s cn cv pn content branch).2
        cn cv pn content branch).1.2 = false ∧
    (publishPact sha (publishPact sha s cn cv pn content branch).2
        cn cv pn content branch).1.1.contentSha =
      (publishPact sha s cn cv pn content branch).1.1.contentSha ∧
    (publishPact sha (publishPact sha s cn cv pn content branch).2
        cn cv pn content branch).2 =
      (publishPact sha s cn cv pn content branch).2 := by
  obtain ⟨row, flag, s', c, V, P, hcall1, hsha, hq, hv, hP, hrow⟩ :=
    publishPact_post sha s cn cv pn content branch
  have h2nd := publishPact_found_state sha s' cn cv pn content branch
    c V P row hq hv hP hrow hsha
  rw [hcall1]
  show (publishPact sha s' cn cv pn content branch).1.2 = false ∧
       (publishPact sha s' cn cv pn content branch).1.1.contentSha =
         row.contentSha ∧
       (publishPact sha s' cn cv pn content branch).2 = s'
  rw [h2nd]
  exact ⟨rfl, rfl, rfl⟩

/-- A filter keeps an element iff some member satisfies the predicate. -/
theorem filter_length_pos_iff {α} (p : α → Bool) (l : List α) :
    (l.filter p).length > 0 ↔ ∃ x ∈ l, p x = true := by
  constructor
  · intro h
    have hne : l.filter p ≠ [] := by
      intro hnil
      rw [hnil] at h
      simp at h
    rcases List.exists_mem_of_ne_nil _ hne with ⟨x, hx⟩
    exact ⟨x, (List.mem_filter.mp hx).1, (List.mem_filter.mp hx).2⟩
  · rintro ⟨x, hx, hpx⟩
    have hmem : x ∈ l.filter p := List.mem_filter.mpr ⟨hx, hpx⟩
    have hne : l.filter p ≠ [] := by
      intro hnil
      rw [hnil] at hmem
      exact List.not_mem_nil x hmem
    exact List.length_pos.mpr hne

/-- **C1**: `canIDeploy` builds the matrix restricted to the version and is
deployable with the fixed no-pacts reason on an empty matrix; otherwise it
is not deployable with the unverified count whenever any row lacks a
result (even if failed rows also exist), not deployable with the failed
count when all rows have results but one is unsuccessful, and deployable
with the all-verified reason when every row succeeded. -/
theorem canIDeploy_spec (s : Store) (pname version : String)
    (toTag : Option String) :
    (getMatrix s pname (some version) toTag = [] →
      canIDeploy s pname version toTag =
        { deployable := true, reason := "No pacts found for this version",
          matrix := [] }) ∧
    (getMatrix s pname (some version) toTag ≠ [] →
      (∃ row ∈ getMatrix s pname (some version) toTag,
          row.verificationResult = none) →
      canIDeploy s pname version toTag =
        { deployable := false,
          reason := toString ((getMatrix s pname (some version) toTag).filter
              (fun row => row.verificationResult.isNone)).length ++
            " pact(s) have not been verified",
          matrix := getMatrix s pname (some version) toTag }) ∧
    (getMatrix s pname (some version) toTag ≠ [] →
      (∀ row ∈ getMatrix s pname (some version) toTag,
          row.verificationResult ≠ none) →
      (∃ row ∈ getMatrix s pname (some version) toTag, ∃ t,
          row.verificationResult = some (false, t)) →
      canIDeploy s pname version toTag =
        { deployable := false,
          reason := toString ((getMatrix s pname (some version) toTag).filter
              (fun row => match row.verificationResult with
                          | some vr => ¬ vr.1
                          | none => false)).length ++
            " pact verification(s) failed",
          matrix := getMatrix s pname (some version) toTag }) ∧
    (getMatrix s pname (some version) toTag ≠ [] →
      (∀ row ∈ getMatrix s pname (some version) toTag, ∃ t,
          row.verificationResult = some (true, t)) →
      canIDeploy s pname version toTag =
        { deployable := true, reason := "All pacts verified successfully",
          matrix := getMatrix s pname (some version) toTag }) := by
  unfold canIDeploy
  refine ⟨?_, ?_, ?_, ?_⟩
  · intro h
    simp [h]
  · intro hne hex
    have hu : ((getMatrix s pname (some version) toTag).filter
        (fun row => row.verificationResult.isNone)).length > 0 := by
      rw [filter_length_pos_iff]
      rcases hex with ⟨row, hrow, hres⟩
      exact ⟨row, hrow, by simp [hres]⟩
    rw [if_neg (by simp [hne]), if_pos hu]
  · intro hne hall hex
    have hu : ((getMatrix s pname (some version) toTag).filter
        (fun row => row.verificationResult.isNone)).length = 0 := by
      by_contra hpos
      have := (filter_length_pos_iff _ _).mp (Nat.pos_of_ne_zero hpos)
      rcases this with ⟨row, hrow, hres⟩
      exact hall row hrow (by simpa [Option.isNone_iff_eq_none] using hres)
    have hf : ((getMatrix s pname (some version) toTag).filter
        (fun row => match row.verificationResult with
                    | some vr => ¬ vr.1
                    | none => false)).length > 0 := by
      rw [filter_length_pos_iff]
      rcases hex with ⟨row, hrow, t, hres⟩
      exact ⟨row, hrow, by simp [hres]⟩
    rw [if_neg (by simp [hne]), if_neg (by omega), if_pos hf]
  · intro hne hall
    have hu : ((getMatrix s pname (some version) toTag).filter
        (fun row => row.verificationResult.isNone)).length = 0 := by
      by_contra hpos
      have := (filter_length_pos_iff _ _).mp (Nat.pos_of_ne_zero hpos)
      rcases this with ⟨row, hrow, hres⟩
      rcases hall row hrow with ⟨t, ht⟩
      rw [ht] at hres
      simp at hres
    have hf : ((getMatrix s pname (some version) toTag).filter
        (fun row => match row.verificationResult with
                    | some vr => ¬ vr.1
                    | none => false)).length = 0 := by
      by_contra hpos
      have := (filter_length_pos_iff _ _).mp (Nat.pos_of_ne_zero hpos)
      rcases this with ⟨row, hrow, hres⟩
      rcases hall row hrow with ⟨t, ht⟩
      rw [ht] at hres
      simp at hres
    rw [if_neg (by simp [hne]), if_neg (by omega), if_neg (by omega)]

/-- Witness for **C1** at `storeMixed`: two pacts of `web 1.0.0`, one with
a failed verification and one unverified; the unverified count wins the
reported reason and deployability is false. -/
theorem canIDeploy_spec_w :
    (∃ row ∈ getMatrix storeMixed "web" (some "1.0.0") none,
        row.verificationResult = some (false, 7)) ∧
    canIDeploy storeMixed "web" "1.0.0" none =
      { deployable := false,
        reason := toString ((getMatrix storeMixed "web" (some "1.0.0")
            none).filter (fun row => row.verificationResult.isNone)).length ++
          " pact(s) have not been verified",
        matrix := getMatrix storeMixed "web" (some "1.0.0") none } := by
  refine ⟨by decide, ?_⟩
  exact (canIDeploy_spec storeMixed "web" "1.0.0" none).2.1 (by decide)
    (by decide)

/-- If no tag row anywhere carries the name, tag resolution is absent for
every pacticipant. -/
theorem getLatestVersionByTag_none_of_no_tag {s : Store} {t : String}
    (h : ∀ tg ∈ s.tags, tg.name ≠ t) (n : String) :
    getLatestVersionByTag s n t = none := by
  unfold getLatestVersionByTag
  cases hp : getPacticipant s n with
  | none => rfl
  | some p =>
    rw [argmaxCreatedAt_eq_none, List.filter_eq_nil_iff]
    intro v hv
    simp only [decide_eq_true_eq, not_and]
    intro hpid
    unfold versionHasTag
    rw [List.any_eq_true]
    push_neg
    intro tg htg
    simp [h tg htg]

/-- **C6**: the verification shown on a matrix row is resolved by
`rowVerification`: with a `towardTag` it is the newest verification of the
pact by the provider version carrying the tag, absent when no provider
version carries the tag or that version never verified the pact; without a
tag it is the newest verification of the pact by any provider version;
every matrix row carries exactly this lookup for its pact and provider,
and `decide` with a tag that no version carries reports every row
unverified and is not deployable. -/
theorem getMatrix_toward_tag_spec (s : Store) :
    (∀ provName pactId t, getLatestVersionByTag s provName t = none →
      rowVerification s provName pactId (some t) = none) ∧
    (∀ provName pactId t pvv,
      getLatestVersionByTag s provName t = some pvv →
      (∀ vr, rowVerification s provName pactId (some t) = some vr →
        vr ∈ s.verifications ∧ vr.pactId = pactId ∧
        vr.providerVersionId = pvv.id ∧
        ∀ w ∈ s.verifications, w.pactId = pactId →
          w.providerVersionId = pvv.id → w.verifiedAt ≤ vr.verifiedAt) ∧
      (rowVerification s provName pactId (some t) = none ↔
        ∀ w ∈ s.verifications,
          ¬(w.pactId = pactId ∧ w.providerVersionId = pvv.id))) ∧
    (∀ provName pactId,
      (∀ vr, rowVerification s provName pactId none = some vr →
        vr ∈ s.verifications ∧ vr.pactId = pactId ∧
        ∀ w ∈ s.verifications, w.pactId = pactId →
          w.verifiedAt ≤ vr.verifiedAt) ∧
      (rowVerification s provName pactId none = none ↔
        ∀ w ∈ s.verifications, w.pactId ≠ pactId)) ∧
    (∀ pname version toTag row, row ∈ getMatrix s pname version toTag →
      ∃ pc ∈ s.pacts, ∃ provider,
        s.pacticipants.find? (fun p => p.id = pc.providerId) = some provider ∧
        row.providerName = provider.name ∧ row.pactSha = pc.contentSha ∧
        row.verificationResult =
          (rowVerification s provider.name pc.id toTag).map
            (fun vr => (vr.success, vr.verifiedAt))) ∧
    (∀ pname version t, (∀ tg ∈ s.tags, tg.name ≠ t) →
      getMatrix s pname (some version) (some t) ≠ [] →
      (canIDeploy s pname version (some t)).deployable = false) := by
  have hD : ∀ pname version toTag row, row ∈ getMatrix s pname version toTag →
      ∃ pc ∈ s.pacts, ∃ provider,
        s.pacticipants.find? (fun p => p.id = pc.providerId) = some provider ∧
        row.providerName = provider.name ∧ row.pactSha = pc.contentSha ∧
        row.verificationResult =
          (rowVerification s provider.name pc.id toTag).map
            (fun vr => (vr.success, vr.verifiedAt)) := by
    intro pname version toTag row hrow
    unfold getMatrix at hrow
    cases hp : getPacticipant s pname with
    | none => rw [hp] at hrow; cases hrow
    | some pacticipant =>
      rw [hp] at hrow
      rcases List.mem_filterMap.mp hrow with ⟨pcv, hpcv, hf⟩
      rcases List.mem_filterMap.mp hpcv with ⟨pc, hpc, hg⟩
      rcases Option.bind_eq_some.mp hg with ⟨cver, hcver, hif⟩
      have hpcv2 : pcv = (pc, cver) := by
        by_cases hc : cver.pacticipantId = pacticipant.id
        · simp [hc] at hif
          exact hif.symm
        · simp [hc] at hif
      subst hpcv2
      cases version with
      | some vn =>
        simp only [] at hf
        by_cases hvn : cver.number ≠ vn
        · rw [if_pos hvn] at hf
          cases hf
        · rw [if_neg hvn] at hf
          rcases Option.bind_eq_some.mp hf with ⟨consumer, hcons, hmap⟩
          rcases Option.map_eq_some'.mp hmap with ⟨provider, hprov, hrw⟩
          exact ⟨pc, hpc, provider, hprov, by rw [← hrw], by rw [← hrw],
                 by rw [← hrw]⟩
      | none =>
        simp only [] at hf
        rcases Option.bind_eq_some.mp hf with ⟨consumer, hcons, hmap⟩
        rcases Option.map_eq_some'.mp hmap with ⟨provider, hprov, hrw⟩
        exact ⟨pc, hpc, provider, hprov, by rw [← hrw], by rw [← hrw],
               by rw [← hrw]⟩
  have hA : ∀ provName pactId t, getLatestVersionByTag s provName t = none →
      rowVerification s provName pactId (some t) = none := by
    intro provName pactId t h
    unfold rowVerification
    simp only []
    rw [h]
  refine ⟨hA, ?_, ?_, hD, ?_⟩
  · intro provName pactId t pvv h
    constructor
    · intro vr hvr
      unfold rowVerification at hvr
      simp only [] at hvr
      rw [h] at hvr
      have hmem := argmaxVerifiedAt_mem hvr
      have hpred := (List.mem_filter.mp hmem).2
      simp only [decide_eq_true_eq] at hpred
      refine ⟨(List.mem_filter.mp hmem).1, hpred.1, hpred.2, ?_⟩
      intro w hw h1 h2
      exact argmaxVerifiedAt_max hvr w
        (List.mem_filter.mpr ⟨hw, by simp [h1, h2]⟩)
    · unfold rowVerification
      simp only []
      rw [h, argmaxVerifiedAt_eq_none, List.filter_eq_nil_iff]
      constructor
      · intro hn w hw
        have := hn w hw
        simpa using this
      · intro hn w hw
        have := hn w hw
        simpa using this
  · intro provName pactId
    constructor
    · intro vr hvr
      unfold rowVerification at hvr
      have hmem := argmaxVerifiedAt_mem hvr
      have hpred := (List.mem_filter.mp hmem).2
      simp only [decide_eq_true_eq] at hpred
      refine ⟨(List.mem_filter.mp hmem).1, hpred, ?_⟩
      intro w hw h1
      exact argmaxVerifiedAt_max hvr w
        (List.mem_filter.mpr ⟨hw, by simp [h1]⟩)
    · unfold rowVerification
      rw [argmaxVerifiedAt_eq_none, List.filter_eq_nil_iff]
      constructor
      · intro hn w hw
        have := hn w hw
        simpa using this
      · intro hn w hw
        have := hn w hw
        simpa using this
  · intro pname version t hnotag hne
    have hallnone : ∀ row ∈ getMatrix s pname (some version) (some t),
        row.verificationResult = none := by
      intro row hrow
      rcases hD pname (some version) (some t) row hrow with
        ⟨pc, hpc, provider, hprov, hname, hsha, hres⟩
      rw [hres, hA provider.name pc.id t
        (getLatestVersionByTag_none_of_no_tag hnotag provider.name)]
      rfl
    have hu : ((getMatrix s pname (some version) (some t)).filter
        (fun row => row.verificationResult.isNone)).length > 0 := by
      rw [filter_length_pos_iff]
      rcases List.exists_mem_of_ne_nil _ hne with ⟨row, hrow⟩
      exact ⟨row, hrow, by simp [hallnone row hrow]⟩
    unfold canIDeploy
    rw [if_neg (by simp [hne]), if_pos hu]

/-- Witness for **C6** at `storeVerified`: the pact is verified, but no
version is tagged `staging`, so the tag-scoped decision is not deployable. -/
theorem getMatrix_toward_tag_spec_w :
    storeVerified.tags = [] ∧
    getMatrix storeVerified "web" (some "1.0.0") (some "staging") ≠ [] ∧
    (canIDeploy storeVerified "web" "1.0.0" (some "staging")).deployable =
      false := by
  refine ⟨by decide, by decide, ?_⟩
  exact (getMatrix_toward_tag_spec storeVerified).2.2.2.2 "web" "1.0.0"
    "staging" (by decide) (by decide)

/-- A conditional filter yields a sublist. -/
theorem condFilter_sublist {α} (c : Prop) [Decidable c] (p : α → Bool)
    (l : List α) : (if c then l.filter p else l).Sublist l := by
  split
  · exact List.filter_sublist l
  · exact List.Sublist.refl l

/-- Every selector's filtered subset is a sublist of the candidate set. -/
theorem selectorFilter_sublist (s : Store) (base : List PactFull)
    (sel : Selector) : (selectorFilter s base sel).Sublist base := by
  unfold selectorFilter
  refine List.Sublist.trans (condFilter_sublist _ _ _) ?_
  refine List.Sublist.trans (condFilter_sublist _ _ _) ?_
  refine List.Sublist.trans (condFilter_sublist _ _ _) ?_
  refine List.Sublist.trans (condFilter_sublist _ _ _) ?_
  exact condFilter_sublist _ _ _

/-- Merging a pact with a different id never touches the entry looked up. -/
theorem findEntry_mergeOne_ne {n : List String} {acc : List VerifiablePact}
    {r : PactFull} {pid : Nat} (h : r.pact.id ≠ pid) :
    findEntry (mergeOne n acc r) pid = findEntry acc pid := by
  unfold mergeOne findEntry
  split
  · rw [List.find?_map]
    have hcomp : ((fun e : VerifiablePact => decide (e.pact.id = pid)) ∘
        (fun e => if e.pact.id = r.pact.id then
            { e with notices := e.notices ++ n }
          else e)) =
        (fun e : VerifiablePact => decide (e.pact.id = pid)) := by
      funext e
      by_cases hc : e.pact.id = r.pact.id <;> simp [hc]
    rw [hcomp]
    cases hfind : acc.find? (fun e => decide (e.pact.id = pid)) with
    | none => rfl
    | some e =>
      have hepid : e.pact.id = pid := by simpa using List.find?_some hfind
      have hne : ¬ e.pact.id = r.pact.id := by
        rw [hepid]
        exact fun hh => h hh.symm
      simp [hne]
  · rw [List.find?_append]
    have hnone : List.find? (fun e : VerifiablePact =>
        decide (e.pact.id = pid)) [newEntry r n] = none := by
      simp [newEntry, h]
    rw [hnone]
    cases acc.find? (fun e : VerifiablePact => decide (e.pact.id = pid)) <;> rfl

/-- Merging a pact whose id is already present appends the notices to the
stored entry. -/
theorem findEntry_mergeOne_eq_some {n : List String}
    {acc : List VerifiablePact} {r : PactFull} {pid : Nat}
    {e : VerifiablePact} (hid : r.pact.id = pid)
    (h : findEntry acc pid = some e) :
    findEntry (mergeOne n acc r) pid =
      some { e with notices := e.notices ++ n } := by
  unfold findEntry at h ⊢
  have hepid : e.pact.id = pid := by simpa using List.find?_some h
  have hany : acc.any (fun e2 => e2.pact.id = r.pact.id) = true := by
    rw [List.any_eq_true]
    exact ⟨e, List.mem_of_find?_eq_some h, by simp [hepid, hid]⟩
  unfold mergeOne
  rw [if_pos hany, List.find?_map]
  have hcomp : ((fun e2 : VerifiablePact => decide (e2.pact.id = pid)) ∘
      (fun e2 => if e2.pact.id = r.pact.id then
          { e2 with notices := e2.notices ++ n }
        else e2)) =
      (fun e2 : VerifiablePact => decide (e2.pact.id = pid)) := by
    funext e2
    by_cases hc : e2.pact.id = r.pact.id <;> simp [hc]
  rw [hcomp, h]
  have : e.pact.id = r.pact.id := by rw [hepid, hid]
  simp [this]

/-- Merging a pact whose id is absent appends the fresh entry. -/
theorem findEntry_mergeOne_eq_none {n : List String}
    {acc : List VerifiablePact} {r : PactFull} {pid : Nat}
    (hid : r.pact.id = pid) (h : findEntry acc pid = none) :
    findEntry (mergeOne n acc r) pid = some (newEntry r n) := by
  unfold findEntry at h ⊢
  have hnone : ∀ e ∈ acc, ¬ (e.pact.id = pid) := by
    intro e he
    have := List.find?_eq_none.mp h e he
    simpa using this
  have hany : ¬ (acc.any (fun e2 => e2.pact.id = r.pact.id) = true) := by
    rw [List.any_eq_true]
    rintro ⟨e, he, hpe⟩
    exact hnone e he (by simpa [hid] using hpe)
  unfold mergeOne
  rw [if_neg hany, List.find?_append, h]
  simp [newEntry, hid]

/-- Folding matches whose ids all differ from the looked-up id leaves the
entry unchanged. -/
theorem findEntry_mergeMatches_no_match {n : List String}
    {hits : List PactFull} {acc : List VerifiablePact} {pid : Nat}
    (h : ∀ x ∈ hits, x.pact.id ≠ pid) :
    findEntry (mergeMatches acc hits n) pid = findEntry acc pid := by
  induction hits generalizing acc with
  | nil => rfl
  | cons x xs ih =>
    have hstep : mergeMatches acc (x :: xs) n =
        mergeMatches (mergeOne n acc x) xs n := rfl
    rw [hstep, ih (fun y hy => h y (List.mem_cons_of_mem _ hy))]
    exact findEntry_mergeOne_ne (h x (List.mem_cons_self x xs))

/-- Folding matches containing the looked-up id exactly once (guaranteed by
id-distinctness) appends the notices to a present entry or inserts the
fresh entry built from the first match. -/
theorem findEntry_mergeMatches_match {n : List String}
    {hits : List PactFull} {acc : List VerifiablePact} {pid : Nat}
    {r0 : PactFull} (hnd : (hits.map (fun x => x.pact.id)).Nodup)
    (hfind : hits.find? (fun x => x.pact.id = pid) = some r0) :
    findEntry (mergeMatches acc hits n) pid =
      match findEntry acc pid with
      | some e => some { e with notices := e.notices ++ n }
      | none => some (newEntry r0 n) := by
  induction hits generalizing acc with
  | nil => simp [List.find?] at hfind
  | cons x xs ih =>
    have hstep : mergeMatches acc (x :: xs) n =
        mergeMatches (mergeOne n acc x) xs n := rfl
    rw [hstep]
    by_cases hx : x.pact.id = pid
    · have hcons : (x :: xs).find? (fun y => y.pact.id = pid) = some x := by
        simp [List.find?_cons_of_pos, hx]
      rw [hcons] at hfind
      have hr0 : r0 = x := (Option.some.inj hfind).symm
      subst hr0
      have htail : ∀ y ∈ xs, y.pact.id ≠ pid := by
        intro y hy hyid
        have hmem : r0.pact.id ∈ xs.map (fun z => z.pact.id) := by
          rw [hx, ← hyid]
          exact List.mem_map_of_mem _ hy
        exact (List.nodup_cons.mp hnd).1 hmem
      rw [findEntry_mergeMatches_no_match htail]
      cases hacc : findEntry acc pid with
      | some e => exact findEntry_mergeOne_eq_some hx hacc
      | none => exact findEntry_mergeOne_eq_none hx hacc
    · have hfind' : xs.find? (fun y => y.pact.id = pid) = some r0 := by
        rw [List.find?_cons_of_neg] at hfind
        · exact hfind
        · simp [hx]
      rw [ih (List.nodup_cons.mp hnd).2 hfind', findEntry_mergeOne_ne hx]

/-- Every entry after one merge has the id of a previous entry or of the
merged pact. -/
theorem mem_mergeOne {n : List String} {acc : List VerifiablePact}
    {r : PactFull} {e : VerifiablePact} (h : e ∈ mergeOne n acc r) :
    (∃ e0 ∈ acc, e.pact.id = e0.pact.id) ∨ e.pact.id = r.pact.id := by
  unfold mergeOne at h
  split at h
  · rcases List.mem_map.mp h with ⟨e0, he0, heq⟩
    left
    refine ⟨e0, he0, ?_⟩
    by_cases hc : e0.pact.id = r.pact.id
    · simp only [hc, if_pos] at heq
      rw [← heq]
    · simp only [hc, if_neg, ite_false] at heq
      rw [← heq]
  · rcases List.mem_append.mp h with h | h
    · left
      exact ⟨e, h, rfl⟩
    · right
      have he : e = newEntry r n := by simpa using h
      rw [he]
      rfl

/-- Every entry after merging a hit list has the id of a previous entry or
of some hit. -/
theorem mem_mergeMatches {n : List String} {hits : List PactFull}
    {acc : List VerifiablePact} {e : VerifiablePact}
    (h : e ∈ mergeMatches acc hits n) :
    (∃ e0 ∈ acc, e.pact.id = e0.pact.id) ∨
      ∃ x ∈ hits, e.pact.id = x.pact.id := by
  induction hits generalizing acc with
  | nil =>
    left
    exact ⟨e, h, rfl⟩
  | cons x xs ih =>
    have hstep : mergeMatches acc (x :: xs) n =
        mergeMatches (mergeOne n acc x) xs n := rfl
    rw [hstep] at h
    rcases ih h with ⟨e0, he0, heq⟩ | ⟨y, hy, hid⟩
    · rcases mem_mergeOne he0 with ⟨e1, he1, heq1⟩ | hid
      · left
        exact ⟨e1, he1, heq.trans heq1⟩
      · right
        exact ⟨x, List.mem_cons_self x xs, heq.trans hid⟩
    · right
      exact ⟨y, List.mem_cons_of_mem _ hy, hid⟩

/-- Every entry produced by the selector fold has the id of a pact kept by
some selector's filter. -/
theorem mem_foldSelectors {s : Store} {base : List PactFull}
    {selectors : List Selector} {acc : List VerifiablePact}
    {e : VerifiablePact}
    (h : e ∈ selectors.foldl (fun a sel =>
        mergeMatches a (selectorFilter s base sel) (selectorNotices sel)) acc) :
    (∃ e0 ∈ acc, e.pact.id = e0.pact.id) ∨
      ∃ sel ∈ selectors, ∃ x ∈ selectorFilter s base sel,
        e.pact.id = x.pact.id := by
  induction selectors generalizing acc with
  | nil =>
    left
    exact ⟨e, h, rfl⟩
  | cons sel rest ih =>
    rw [List.foldl_cons] at h
    rcases ih h with ⟨e0, he0, heq⟩ | ⟨sel', hs', x, hx, hid⟩
    · rcases mem_mergeMatches he0 with ⟨e1, he1, heq1⟩ | ⟨x, hx, hid⟩
      · left
        exact ⟨e1, he1, heq.trans heq1⟩
      · right
        exact ⟨sel, List.mem_cons_self sel rest, x, hx, heq.trans hid⟩
    · right
      exact ⟨sel', List.mem_cons_of_mem _ hs', x, hx, hid⟩

/-- In a list with distinct pact ids, the id scan starting from a member
returns that member. -/
theorem find?_id_of_mem {base : List PactFull}
    (hnd : (base.map (fun r => r.pact.id)).Nodup) {r : PactFull}
    (hr : r ∈ base) :
    base.find? (fun x => x.pact.id = r.pact.id) = some r := by
  cases hfind : base.find? (fun x => x.pact.id = r.pact.id) with
  | none =>
    exfalso
    have := List.find?_eq_none.mp hfind r hr
    simp at this
  | some x =>
    have hx := List.mem_of_find?_eq_some hfind
    have hxid : x.pact.id = r.pact.id := by simpa using List.find?_some hfind
    have : x = r := List.inj_on_of_nodup_map hnd hx hr hxid
    rw [this]

/-- A sublist that contains the id finds the same representative as the
full id-distinct list. -/
theorem find?_id_sublist {base sr : List PactFull} {pid : Nat}
    {r0 : PactFull} (hnd : (base.map (fun r => r.pact.id)).Nodup)
    (hsub : sr.Sublist base)
    (hr0 : base.find? (fun x => x.pact.id = pid) = some r0)
    (hany : sr.any (fun x => x.pact.id = pid) = true) :
    sr.find? (fun x => x.pact.id = pid) = some r0 := by
  rcases List.any_eq_true.mp hany with ⟨y, hy, hyid⟩
  cases hfind : sr.find? (fun x => x.pact.id = pid) with
  | none =>
    exfalso
    exact absurd hyid (List.find?_eq_none.mp hfind y hy)
  | some x =>
    have hx : x ∈ base := hsub.subset (List.mem_of_find?_eq_some hfind)
    have hxid : x.pact.id = pid := by simpa using List.find?_some hfind
    have hr0mem : r0 ∈ base := List.mem_of_find?_eq_some hr0
    have hr0id : r0.pact.id = pid := by simpa using List.find?_some hr0
    have : x = r0 :=
      List.inj_on_of_nodup_map hnd hx hr0mem (by rw [hxid, hr0id])
    rw [this]

/-- The selector fold evaluated at the id of a candidate pact: each
selector is applied to the full candidate set; the entry exists iff some
processed selector matched, its notices starting from the first matching
selector's contribution (or the generic fallback) and accumulating every
later matching selector's notices. -/
theorem foldSelectors_findEntry {s : Store} {base : List PactFull}
    (hnd : (base.map (fun r => r.pact.id)).Nodup)
    (selectors : List Selector) (acc : List VerifiablePact) {pid : Nat}
    {r0 : PactFull}
    (hr0 : base.find? (fun x => x.pact.id = pid) = some r0) :
    findEntry (selectors.foldl (fun a sel =>
        mergeMatches a (selectorFilter s base sel) (selectorNotices sel))
        acc) pid =
      match findEntry acc pid, matchSelectors s base pid selectors with
      | some e, M =>
        some { e with notices := e.notices ++ (M.map selectorNotices).flatten }
      | none, [] => none
      | none, sel :: rest =>
        some { pact := r0.pact, consumer := r0.consumer,
               provider := r0.provider, version := r0.version,
               notices := accNotices (sel :: rest) } := by
  induction selectors generalizing acc with
  | nil =>
    have hM : matchSelectors s base pid [] = [] := rfl
    rw [hM, List.foldl_nil]
    cases hacc : findEntry acc pid with
    | none => rfl
    | some e => simp
  | cons sel rest ih =>
    rw [List.foldl_cons]
    by_cases hmatch :
        (selectorFilter s base sel).any (fun x => x.pact.id = pid) = true
    · have hM : matchSelectors s base pid (sel :: rest) =
          sel :: matchSelectors s base pid rest := by
        unfold matchSelectors
        rw [List.filter_cons_of_pos]
        simpa using hmatch
      rw [hM]
      have hndr : ((selectorFilter s base sel).map
          (fun x => x.pact.id)).Nodup :=
        List.Nodup.sublist ((selectorFilter_sublist s base sel).map _) hnd
      have hfindsr := find?_id_sublist hnd (selectorFilter_sublist s base sel)
        hr0 hmatch
      rw [ih (mergeMatches acc (selectorFilter s base sel)
        (selectorNotices sel))]
      rw [findEntry_mergeMatches_match hndr hfindsr]
      cases hacc : findEntry acc pid with
      | some e =>
        simp only [List.map_cons, List.flatten_cons, List.append_assoc]
      | none =>
        cases hMr : matchSelectors s base pid rest with
        | nil =>
          simp [newEntry, accNotices]
        | cons m ms =>
          simp [newEntry, accNotices]
    · have hM : matchSelectors s base pid (sel :: rest) =
          matchSelectors s base pid rest := by
        unfold matchSelectors
        rw [List.filter_cons_of_neg]
        simpa using hmatch
      rw [hM]
      have hnm : ∀ x ∈ selectorFilter s base sel, x.pact.id ≠ pid := by
        intro x hx hxid
        exact hmatch (List.any_eq_true.mpr ⟨x, hx, by simp [hxid]⟩)
      rw [ih (mergeMatches acc (selectorFilter s base sel)
        (selectorNotices sel))]
      rw [findEntry_mergeMatches_no_match hnm]

/-- **C3**: with a nonempty selector list, every selector is evaluated
against the full latest-per-consumer candidate set (never against a
previous selector's output), results are unioned by pact id, and the entry
of a candidate pact exists iff some selector matched it, carrying exactly
the notices of its matching selectors in order — the first matching
selector's notices (or the generic fallback) followed by the notices of
every further matching selector, and nothing from selectors that did not
match it. -/
theorem getPactsForVerification_selector_spec
    (s : Store) (provName : String) (selectors : List Selector)
    (hsel : selectors ≠ [])
    (hnd : ((getLatestPactsForProvider s provName).map
        (fun r => r.pact.id)).Nodup) :
    (∀ r ∈ getLatestPactsForProvider s provName,
      findEntry (getPactsForVerification s provName selectors) r.pact.id =
        (if matchSelectors s (getLatestPactsForProvider s provName)
            r.pact.id selectors = [] then none
         else some { pact := r.pact, consumer := r.consumer,
                     provider := r.provider, version := r.version,
                     notices := accNotices (matchSelectors s
                       (getLatestPactsForProvider s provName)
                       r.pact.id selectors) })) ∧
    (∀ e ∈ getPactsForVerification s provName selectors,
      ∃ sel ∈ selectors, ∃ x ∈ selectorFilter s
          (getLatestPactsForProvider s provName) sel,
        e.pact.id = x.pact.id) := by
  have hie : ¬ (selectors.isEmpty = true) := by
    simp [List.isEmpty_iff, hsel]
  constructor
  · intro r hr
    unfold getPactsForVerification
    cases hp : getPacticipant s provName with
    | none =>
      exfalso
      unfold getLatestPactsForProvider at hr
      rw [hp] at hr
      exact absurd hr (List.not_mem_nil r)
    | some prov =>
      rw [if_neg hie]
      have hr0 := find?_id_of_mem hnd hr
      rw [foldSelectors_findEntry hnd selectors [] hr0]
      have hE : findEntry ([] : List VerifiablePact) r.pact.id = none := rfl
      rw [hE]
      cases hM : matchSelectors s (getLatestPactsForProvider s provName)
          r.pact.id selectors with
      | nil => rfl
      | cons m ms => rfl
  · intro e he
    unfold getPactsForVerification at he
    cases hp : getPacticipant s provName with
    | none =>
      rw [hp] at he
      exact absurd he (List.not_mem_nil e)
    | some prov =>
      rw [hp] at he
      rw [if_neg hie] at he
      rcases mem_foldSelectors he with ⟨e0, he0, -⟩ | h
      · exact absurd he0 (List.not_mem_nil e0)
      · exact h

/-- Witness for **C3** at `storeSel` with the spec's example selectors
`[{tag: main}, {deployed: true, environment: prod}]`: the `web` pact
matches only the tag selector and carries exactly its notice, while the
`mob` pact matches both selectors. -/
theorem getPactsForVerification_selector_spec_w :
    findEntry (getPactsForVerification storeSel "api"
        [selTagMain, selDeployedProd]) 1 =
      some { pact := { id := 1, consumerVersionId := 1, providerId := 2,
                       content := "X1", contentSha := "X1", createdAt := 3 },
             consumer := { id := 1, name := "web",
                           mainBranch := some "main", createdAt := 0 },
             provider := { id := 2, name := "api",
                           mainBranch := some "main", createdAt := 2 },
             version := { id := 1, pacticipantId := 1, number := "1.0.0",
                          branch := none, buildUrl := none, createdAt := 1 },
             notices := accNotices (matchSelectors storeSel
               (getLatestPactsForProvider storeSel "api") 1
               [selTagMain, selDeployedProd]) } ∧
    accNotices (matchSelectors storeSel
        (getLatestPactsForProvider storeSel "api") 1
        [selTagMain, selDeployedProd]) =
      ["version tagged with " ++ sglq ++ "main" ++ sglq] ∧
    matchSelectors storeSel (getLatestPactsForProvider storeSel "api") 1
        [selTagMain, selDeployedProd] = [selTagMain] ∧
    matchSelectors storeSel (getLatestPactsForProvider storeSel "api") 2
        [selTagMain, selDeployedProd] = [selTagMain, selDeployedProd] := by
  have h := (getPactsForVerification_selector_spec storeSel "api"
      [selTagMain, selDeployedProd] (by decide) (by decide)).1
    { pact := { id := 1, consumerVersionId := 1, providerId := 2,
                content := "X1", contentSha := "X1", createdAt := 3 },
      consumer := { id := 1, name := "web", mainBranch := some "main",
                    createdAt := 0 },
      provider := { id := 2, name := "api", mainBranch := some "main",
                    createdAt := 2 },
      version := { id := 1, pacticipantId := 1, number := "1.0.0",
                   branch := none, buildUrl := none, createdAt := 1 } }
    (by decide)
  rw [if_neg (by decide)] at h
  exact ⟨h, by decide, by decide, by decide⟩
